import Mathlib

/-!
Verification of the shorts-scoop repository: a shallow embedding of the
feed builder (`scripts/build_latest_youtube.js`) and the feed renderer
(`assets/app.js`, first variant), with theorems settling the specification
claims about them.

Conventions: JavaScript numbers that hold integer data are modelled as
`Nat`/`Int`; a JS value that may be `null`/`NaN`/`undefined` is modelled as
an `Option`; fallible operations return `Option`.
-/

/-! ## Generic string helpers (modelling JS string primitives) -/

/-- Boolean test that `p` is a prefix of `s` (char lists). -/
def startsWithL : List Char → List Char → Bool
  | [], _ => true
  | _ :: _, [] => false
  | p :: ps, c :: cs => p = c && startsWithL ps cs

/-- Boolean test that `pat` occurs as a contiguous substring of the second
argument; models JS `String.prototype.includes`. -/
def hasSub (pat : List Char) : List Char → Bool
  | [] => startsWithL pat []
  | c :: cs => startsWithL pat (c :: cs) || hasSub pat cs

/-- Models `s.includes(pat)` from JS. -/
def strIncludes (s pat : String) : Bool := hasSub pat.data s.data

/-- Models JS `String.prototype.toLowerCase` (ASCII range; the Japanese
keywords used by the repository are unaffected by lowercasing). -/
def jsLower (s : String) : String := ⟨s.data.map Char.toLower⟩

/-! ## ISO-8601 duration parser

Embedding of `parseISODurationToSec` (build_latest_youtube.js lines 51-60),
which matches the anchored regex `^PT(?:(\d+)H)?(?:(\d+)M)?(?:(\d+)S)?$`
and returns `h*3600 + mi*60 + s`. The regex is deterministic: after "PT",
each optional group is a nonempty digit run followed by its unit letter,
the letters in the fixed order H, M, S, and the string must end there. -/

/-- Numeric value of a big-endian digit-character list; models JS
`Number()` applied to a captured digit group. -/
def digitsToNat (cs : List Char) : Nat :=
  cs.foldl (fun a c => a * 10 + (c.toNat - 48)) 0

/-- One optional regex group `(?:(\d+)L)?`: take a maximal digit run; if it
is nonempty and followed by the unit letter, consume it and return its
value, otherwise consume nothing. -/
def parseGroup (letter : Char) (cs : List Char) : Option Nat × List Char :=
  match cs.takeWhile Char.isDigit, cs.dropWhile Char.isDigit with
  | [], _ => (none, cs)
  | _ :: _, [] => (none, cs)
  | d :: ds, c :: rest =>
    if c = letter then (some (digitsToNat (d :: ds)), rest) else (none, cs)

/-- Embedding of `parseISODurationToSec` (lines 51-60): `"PT#H#M#S"` with
any subset of groups present parses to seconds; anything else is `none`. -/
def parseISODurationToSec (iso : String) : Option Nat :=
  match iso.data with
  | 'P' :: 'T' :: rest =>
    let pH := parseGroup 'H' rest
    let pM := parseGroup 'M' pH.2
    let pS := parseGroup 'S' pM.2
    match pS.2 with
    | [] => some (pH.1.getD 0 * 3600 + pM.1.getD 0 * 60 + pS.1.getD 0)
    | _ :: _ => none
  | _ => none

/-! ## Topic classifier

Embedding of `topicFromTitle` (build_latest_youtube.js lines 62-83): an
ordered rule list; the first rule one of whose keywords occurs in the
lowercased title wins; fallback label is "未分類". -/

structure TopicRule where
  topic : String
  keys : List String
  deriving DecidableEq

/-- The fixed ruleset of `topicFromTitle` (lines 66-75), in source order. -/
def topicRules : List TopicRule :=
  [ ⟨"雑学", ["雑学", "豆知識", "知らない", "知ってた", "意外", "保存"]⟩,
    ⟨"筋トレ", ["筋トレ", "腹筋", "腕立て", "スクワット", "ダイエット", "脂肪", "ストレッチ"]⟩,
    ⟨"英語", ["英語", "english", "発音", "フレーズ", "toeic"]⟩,
    ⟨"料理", ["料理", "レシピ", "簡単", "レンジ", "作り方", "うまい"]⟩,
    ⟨"恋愛", ["恋愛", "モテ", "彼女", "彼氏", "デート", "結婚"]⟩,
    ⟨"ライフハック", ["裏技", "便利", "ライフハック", "時短", "節約", "神", "損"]⟩,
    ⟨"副業", ["副業", "稼ぐ", "収益", "アフィ", "仕事", "在宅"]⟩,
    ⟨"エンタメ", ["shorts", "切り抜き", "ドッキリ", "検証", "あるある", "爆笑"]⟩ ]

/-- Inner keyword loop of `topicFromTitle` (lines 77-81): does any keyword
of rule `r`, lowercased, occur in text `t`? -/
def ruleMatches (t : String) (r : TopicRule) : Bool :=
  r.keys.any (fun k => strIncludes t (jsLower k))

/-- Outer rule loop of `topicFromTitle`: first matching rule wins. -/
def classifyGo (t : String) : List TopicRule → String
  | [] => "未分類"
  | r :: rs => if ruleMatches t r then r.topic else classifyGo t rs

/-- Embedding of `topicFromTitle` (lines 62-83). Note it receives only a
title; `(title || "")` is the identity on strings in our model. -/
def topicFromTitle (title : String) : String :=
  classifyGo (jsLower title) topicRules

/-- The builder's per-video topic assignment (line 267): only the title is
passed to the classifier; the channel title is in scope but unused. -/
def candidateTopic (title _channelTitle : String) : String :=
  topicFromTitle title

/-! Specification-side classifier, written from the claim's words rather
than from the code, for comparison. A keyword "occurs as a substring" is
rendered positionally; the first rule in priority order with a matching
keyword wins. -/

/-- Positional substring occurrence, written from the spec's words:
`pat` occurs in `s` iff at some index the slice of matching length
equals `pat`. -/
def occursAt (pat s : List Char) : Bool :=
  (List.range (s.length + 1)).any
    (fun i => decide (((s.drop i).take pat.length) = pat))

/-- Spec-side rule match: some keyword of the rule, lowercased, occurs as a
substring of the given lowercased text. -/
def ruleMatchesSpec (t : String) (r : TopicRule) : Bool :=
  r.keys.any (fun k => occursAt (jsLower k).data t.data)

/-- Spec-side classifier over an arbitrary text: label of the first rule in
the fixed priority order whose keyword set has a substring match, else the
fallback label. -/
def topicSpec (text : String) : String :=
  match topicRules.find? (fun r => ruleMatchesSpec (jsLower text) r) with
  | some r => r.topic
  | none => "未分類"

/-- Modelled from the spec: the claim's classifier, which matches keywords
against the concatenated, lowercased title and channel-name text. -/
def topicSpecConcat (title channel : String) : String :=
  topicSpec (title ++ channel)

/-! ## CLI argument parsing

Embedding of `parseArgs` (build_latest_youtube.js lines 24-48). A JS number
that may be `NaN` is modelled as `Option Int` (`none` = `NaN`); the
post-loop validation replaces non-finite or out-of-range values with the
defaults. Flag values are integer literals per the CLI contract, so
`Number()` is modelled on optionally-signed digit strings; `Number("")`
is `0` in JS, and `Number(undefined)` (a flag with no following argument)
is `NaN`. -/

/-- Models JS `Number()` on an integer-literal string: optional minus sign
then digits; empty string is 0; anything else is `NaN` (`none`). -/
def jsNumber (s : String) : Option Int :=
  match s.data with
  | [] => some 0
  | '-' :: ds =>
    if ds ≠ [] ∧ ds.all Char.isDigit then some (-(digitsToNat ds : Int)) else none
  | ds => if ds.all Char.isDigit then some (digitsToNat ds : Int) else none

/-- Raw option record as accumulated by the argument loop, before the
post-loop validation; numeric fields may hold `NaN` (`none`). -/
structure RawOptions where
  maxItems : Option Int := some 50
  lookbackHours : Option Int := some 36
  perQuery : Option Int := some 25
  delayMs : Option Int := some 150
  selftest : Bool := false
  debug : Bool := false
  deriving DecidableEq

/-- Validated options produced by `parseArgs`. -/
structure CliOptions where
  maxItems : Int
  lookbackHours : Int
  perQuery : Int
  delayMs : Int
  selftest : Bool
  debug : Bool
  deriving DecidableEq

/-- The argument loop of `parseArgs` (lines 34-42): a value-taking flag
consumes the following argument (`Number(args[++i])`; a trailing flag with
no following argument reads `undefined`, i.e. `NaN`). -/
def parseArgsGo : List String → RawOptions → RawOptions
  | [], o => o
  | [a], o =>
    if a = "--max" then { o with maxItems := none }
    else if a = "--hours" then { o with lookbackHours := none }
    else if a = "--perQuery" then { o with perQuery := none }
    else if a = "--delayMs" then { o with delayMs := none }
    else if a = "--selftest" then { o with selftest := true }
    else if a = "--debug" then { o with debug := true }
    else o
  | a :: v :: rs, o =>
    if a = "--max" then parseArgsGo rs { o with maxItems := jsNumber v }
    else if a = "--hours" then parseArgsGo rs { o with lookbackHours := jsNumber v }
    else if a = "--perQuery" then parseArgsGo rs { o with perQuery := jsNumber v }
    else if a = "--delayMs" then parseArgsGo rs { o with delayMs := jsNumber v }
    else if a = "--selftest" then parseArgsGo (v :: rs) { o with selftest := true }
    else if a = "--debug" then parseArgsGo (v :: rs) { o with debug := true }
    else parseArgsGo (v :: rs) o

/-- Post-loop validation (lines 43-46) for the three
`!Number.isFinite(v) || v <= 0` fields. -/
def validatePos (v : Option Int) (dflt : Int) : Int :=
  match v with
  | none => dflt
  | some n => if n ≤ 0 then dflt else n

/-- Post-loop validation (line 46) for `delayMs`
(`!Number.isFinite(v) || v < 0`). -/
def validateNonneg (v : Option Int) (dflt : Int) : Int :=
  match v with
  | none => dflt
  | some n => if n < 0 then dflt else n

/-- Embedding of `parseArgs` (lines 24-48). -/
def parseArgs (args : List String) : CliOptions :=
  let o := parseArgsGo args {}
  { maxItems := validatePos o.maxItems 50,
    lookbackHours := validatePos o.lookbackHours 36,
    perQuery := validatePos o.perQuery 25,
    delayMs := validateNonneg o.delayMs 150,
    selftest := o.selftest,
    debug := o.debug }

/-! ## Search request parameters

Embedding of the `URLSearchParams` built in `searchIds`
(build_latest_youtube.js lines 121-133): the `--perQuery` value is passed
verbatim as `maxResults` (`String()` on an integer is modelled as the
identity on its value); `q` is only set when non-empty (JS truthiness). -/

structure SearchParams where
  part : String
  type : String
  maxResults : Int
  order : String
  regionCode : String
  relevanceLanguage : String
  safeSearch : String
  videoDuration : String
  publishedAfter : String
  q : Option String
  deriving DecidableEq

/-- Embedding of the parameter construction in `searchIds`
(lines 121-133). -/
def searchParamsOf (q : String) (publishedAfterISO : String)
    (perQuery : Int) : SearchParams :=
  { part := "id", type := "video", maxResults := perQuery,
    order := "viewCount", regionCode := "JP", relevanceLanguage := "ja",
    safeSearch := "none", videoDuration := "short",
    publishedAfter := publishedAfterISO,
    q := if q = "" then none else some q }

/-! ## HTTP fetch with retry

Embedding of `fetchJson` (build_latest_youtube.js lines 85-110). The
network is modelled as a function from the attempt number to the response
received on that attempt. The result carries the list of back-off delays
slept, in order, so the back-off schedule is part of the observable
behaviour. A successful response returns its body (the JSON-parse step is
outside the retry logic and not modelled). -/

inductive HttpResponse where
  | ok (body : String)
  | err (status : Nat)
  deriving DecidableEq

inductive FetchOutcome where
  | success (body : String)
  | httpError (status : Nat)
  | exhausted
  deriving DecidableEq

/-- The retryable status set of line 100: `[403, 429, 500, 502, 503, 504]`
(quota / rate-limit and server-error classes). -/
def transientStatus (s : Nat) : Bool :=
  s = 403 || s = 429 || s = 500 || s = 502 || s = 503 || s = 504

/-- The attempt loop of `fetchJson` (lines 86-108): `fuel` is the number of
attempts still allowed (initially `retries`); a transient failure with at
least one attempt remaining sleeps `delayMs * attempt` and retries,
any other failure raises immediately; falling off the loop end is the
`"fetchJson failed after retries"` error (line 109). -/
def fetchJsonGo (f : Nat → HttpResponse) (delayMs : Nat) :
    Nat → Nat → FetchOutcome × List Nat
  | _, 0 => (.exhausted, [])
  | attempt, fuel + 1 =>
    match f attempt with
    | .ok body => (.success body, [])
    | .err s =>
      if transientStatus s ∧ fuel ≠ 0 then
        let r := fetchJsonGo f delayMs (attempt + 1) fuel
        (r.1, delayMs * attempt :: r.2)
      else (.httpError s, [])

/-- Embedding of `fetchJson` (lines 85-110): attempts start at 1. -/
def fetchJson (f : Nat → HttpResponse) (retries delayMs : Nat) :
    FetchOutcome × List Nat :=
  fetchJsonGo f delayMs 1 retries

/-! ## Query collector

Embedding of the identifier-collection loop of `main`
(build_latest_youtube.js lines 214-227): every query in the fixed list is
issued, and every returned id is added to a `Set`. A JS `Set` preserves
insertion order and ignores re-inserted elements; it is modelled as a
duplicate-free list grown by `addId`. The collector is parametrised by the
per-query result lists returned by the search endpoint. -/

/-- Models `Set.prototype.add` on an insertion-ordered, duplicate-free
list. -/
def addId (s : List String) (i : String) : List String :=
  if i ∈ s then s else s ++ [i]

/-- Embedding of the collection loop (lines 216-227), including
`Array.from(idSet)`: fold every query's returned ids into the set. -/
def collectIds (results : List (List String)) : List String :=
  results.foldl (fun s ids => ids.foldl addId s) []

/-! ## Candidate construction and ranking -/

/-- Computation of `published_ago_sec` (line 258):
`publishedAt ? Math.max(0, Math.floor((nowMs - publishedAt) / 1000)) : null`.
`publishedAt` is the parsed publish time in milliseconds, `none` when the
snippet has no publish time or `Date.parse` returned `NaN`; the value `0`
is falsy in JS and also yields `null`. `Math.floor` of the exact division
is floor division (`Int.fdiv`). -/
def publishedAgoSec (nowMs : Int) (publishedAt : Option Int) : Option Int :=
  match publishedAt with
  | none => none
  | some p => if p = 0 then none else some (max 0 ((nowMs - p).fdiv 1000))

/-- The duration gate of `main` (lines 249-253): an item is kept only when
its duration parsed (`durationSec == null` skips) and is at most 60
seconds (`durationSec > 60` skips). -/
def durationFilterKeeps : Option Nat → Bool
  | none => false
  | some s => decide (s ≤ 60)

/-- A feed item as consumed by the renderer (`assets/app.js`). String
fields that may be absent in the JSON are modelled as `""` (both are falsy
in JS and the renderer only tests them with `||`); `views` and
`published_ago_sec` may be `null` (`none`). -/
structure RItem where
  video_id : String
  url : String
  title : String
  channel_title : String
  topic : String
  thumbnail_url : String
  views : Option Int
  published_ago_sec : Option Int
  deriving DecidableEq

/-- The sort key of the view-count comparator
`(b.views ?? 0) - (a.views ?? 0)` (build_latest_youtube.js line 271 and
app.js line 82): null coalesces to 0. -/
def viewsKey (it : RItem) : Int := it.views.getD 0

/-- Stable insertion for the descending view-count sort: an element is
placed before the first earlier-sorted element whose key is ≤ its own, so
equal-key elements keep their original relative order — the result is the
unique stable sort JS `Array.prototype.sort` produces for this
comparator. -/
def insertViews (x : RItem) : List RItem → List RItem
  | [] => [x]
  | y :: ys =>
    if viewsKey y ≤ viewsKey x then x :: y :: ys else y :: insertViews x ys

/-- Embedding of `candidates.sort((a, b) => (b.views ?? 0) - (a.views ?? 0))`
(line 271; identically app.js line 82) as a stable sort. -/
def sortViewsDesc (l : List RItem) : List RItem := l.foldr insertViews []

/-! ## Output document and validation

Embedding of `buildLatestJson` and `validateLatestJson`
(build_latest_youtube.js lines 170-188). The built document always is an
object with string meta fields and an items array, so those dynamic-type
guards of lines 180-182 hold by construction; `views` is a dynamic JS
value tested with `typeof`, modelled by `JSVal`. -/

inductive JSVal where
  | num (n : Int)
  | str (s : String)
  | null
  deriving DecidableEq

/-- Models `typeof v === "number"`. -/
def JSVal.isNum : JSVal → Bool
  | .num _ => true
  | _ => false

structure FeedItem where
  video_id : String
  url : String
  title : String
  views : JSVal
  deriving DecidableEq

structure Feed where
  updated_at : String
  source : String
  region : String
  items : List FeedItem
  deriving DecidableEq

/-- The item loop of `validateLatestJson` (lines 183-186): the first
offending item determines the error message. -/
def validateItems : List FeedItem → Option String
  | [] => none
  | it :: rest =>
    if it.video_id = "" ∨ it.url = "" ∨ it.title = "" then
      some "item missing required fields"
    else if it.views.isNum then validateItems rest
    else some "views must be number"

/-- Embedding of `validateLatestJson` (lines 179-188) on a built feed
document: `!s` on a string field is `s = ""`. -/
def validateLatestJson (f : Feed) : Option String :=
  if f.updated_at = "" ∨ f.source = "" ∨ f.region = "" then
    some "missing meta fields"
  else validateItems f.items

/-- The write step of `main` (lines 276-280): the payload is written to
`latest.json` only when validation passes; on a validation error the
process dies before `writeFileSync`, so the previous file is untouched
(`none` = nothing written). -/
def mainWriteStep (payload : Feed) : Option Feed :=
  match validateLatestJson payload with
  | none => some payload
  | some _ => none

/-! ## Feed renderer (assets/app.js, first variant)

Embedding of `escapeHtml` (lines 18-25), the formatting helpers
(lines 3-16), `topicToClass` (lines 27-40) and the per-item markup built by
`render` (lines 91-127). -/

/-- Per-character form of the `escapeHtml` replacement chain (lines 18-25).
The chain replaces single characters in the order `&`, `<`, `>`, `"`, `'`;
since no later pattern occurs in an earlier replacement string, the
sequential `replaceAll` chain equals this simultaneous per-character
substitution. -/
def escChar (c : Char) : List Char :=
  if c = '&' then "&amp;".data
  else if c = '<' then "&lt;".data
  else if c = '>' then "&gt;".data
  else if c = '"' then "&quot;".data
  else if c = '\'' then "&#39;".data
  else [c]

/-- Embedding of `escapeHtml` (lines 18-25) at the char-list level. -/
def escHtmlData (l : List Char) : List Char := l.flatMap escChar

/-- Embedding of `escapeHtml` (lines 18-25). -/
def escapeHtml (s : String) : String := ⟨escHtmlData s.data⟩

/-- Big-endian decimal digit characters of a natural number (little-endian
accumulator form). -/
def natDigitsLE : Nat → List Char
  | 0 => []
  | n + 1 => Char.ofNat (48 + (n + 1) % 10) :: natDigitsLE ((n + 1) / 10)
  decreasing_by exact Nat.div_lt_self (Nat.succ_pos n) (by decide)

/-- Decimal rendering of a natural number, modelling JS number-to-string
conversion for integers. -/
def natRepr (n : Nat) : String :=
  if n = 0 then "0" else ⟨(natDigitsLE n).reverse⟩

/-- Thousands grouping on a little-endian digit list: a comma after every
three digits, modelling `toLocaleString("ja-JP")` grouping. -/
def group3 (ds : List Char) : List Char :=
  if _h : ds.length ≤ 3 then ds
  else ds.take 3 ++ ',' :: group3 (ds.drop 3)
  termination_by ds.length
  decreasing_by simp [List.length_drop]; omega

/-- Models `x.toLocaleString("ja-JP")` for an integer `x`: sign, then
digits grouped in threes by commas. -/
def jsLocaleString (x : Int) : String :=
  (if x < 0 then "-" else "") ++
    (if x = 0 then "0" else ⟨(group3 (natDigitsLE x.natAbs)).reverse⟩)

/-- Embedding of `fmtNum` (app.js lines 3-8): `null` renders as a dash;
a number renders locale-grouped (the non-finite branch cannot fire for an
integer-modelled number). -/
def fmtNum (n : Option Int) : String :=
  match n with
  | none => "-"
  | some x => jsLocaleString x

/-- Embedding of `fmtAgeSec` (app.js lines 9-16): minutes with a floor of
1 under an hour, hours under a day, days otherwise. -/
def fmtAgeSec (sec : Option Int) : String :=
  match sec with
  | none => "-"
  | some s =>
    if s < 3600 then natRepr (max 1 (s.fdiv 60)).toNat ++ "分前"
    else if s < 86400 then natRepr (s.fdiv 3600).toNat ++ "時間前"
    else natRepr (s.fdiv 86400).toNat ++ "日前"

/-- Embedding of `topicToClass` (app.js lines 27-40). -/
def topicToClass (topic : String) : String :=
  let t := topic.trim
  if t = "" then "t-other"
  else if strIncludes t "エンタメ" then "t-ent"
  else if strIncludes t "雑学" then "t-zatsu"
  else if strIncludes t "料理" || strIncludes t "グルメ" then "t-cook"
  else if strIncludes t "恋愛" then "t-love"
  else if strIncludes t "筋トレ" || strIncludes t "ダイエット" || strIncludes t "健康" then "t-fit"
  else if strIncludes t "英語" then "t-eng"
  else if strIncludes t "ライフハック" then "t-life"
  else "t-other"

/-- The rank class chain of `render` (app.js lines 99-103). -/
def rankCls (rank : Nat) : String :=
  if rank = 1 then "rank rank1"
  else if rank = 2 then "rank rank2"
  else if rank = 3 then "rank rank3"
  else "rank"

/-- The link target of `render` (app.js line 93):
`it.url || (it.video_id ? shortsUrl : "#")`. -/
def hrefOf (it : RItem) : String :=
  if it.url = "" then
    (if it.video_id = "" then "#"
     else "https://www.youtube.com/shorts/" ++ it.video_id)
  else it.url

/-- The `innerHTML` template of `render` (app.js lines 107-127), as the
char list of the produced markup. `escapeHtml` is applied exactly where the
source applies it: thumbnail URL, title, topic and channel title; the
`href` interpolation on line 125 is raw. -/
def itemHtmlData (rank : Nat) (it : RItem) : List Char :=
  let href := hrefOf it
  let thumb := it.thumbnail_url
  let topic := if it.topic = "" then "未分類" else it.topic
  "\n      <div class=\"".data ++ (rankCls rank).data ++ "\">".data ++
    (natRepr rank).data ++ "</div>\n\n      <div class=\"thumbWrap\">\n        ".data ++
  (if thumb = "" then "<div class=\"thumb thumbPh\"></div>".data
   else "<img class=\"thumb\" src=\"".data ++ escHtmlData thumb.data ++
        "\" alt=\"\" loading=\"lazy\" />".data) ++
  "\n      </div>\n\n      <div class=\"main\">\n        <div class=\"titleLine\">".data ++
    escHtmlData (if it.title = "" then "(no title)".data else it.title.data) ++
  "</div>\n        <div class=\"meta2\">\n          <span class=\"badge badgeTopic ".data ++
    (topicToClass topic).data ++ "\">".data ++ escHtmlData topic.data ++
  "</span>\n          <span class=\"badge\">Ch: ".data ++
    escHtmlData (if it.channel_title = "" then "-".data else it.channel_title.data) ++
  "</span>\n          <span class=\"badge\">投稿: ".data ++
    (fmtAgeSec it.published_ago_sec).data ++
  "</span>\n          <span class=\"badge badgeStrong\"><span class=\"views\">".data ++
    (fmtNum it.views).data ++
  "</span> 再生</span>\n        </div>\n      </div>\n\n      <div class=\"go\">\n        <a href=\"".data ++
    href.data ++
  "\" target=\"_blank\" rel=\"noopener\">YouTubeで見る →</a>\n      </div>\n    ".data

/-- The rendered markup of one feed card (app.js lines 105-127). -/
def itemHtml (rank : Nat) (it : RItem) : String := ⟨itemHtmlData rank it⟩

/-! # Theorems -/

/-! ## C9: the empty duration "PT" -/

/-- C9: the duration parser applied to `"PT"` (the valid prefix with no
hour, minute or second component) returns 0, not null, and such a duration
passes the 60-second cutoff filter of the build loop rather than being
excluded as unparseable. -/
theorem pt_empty_duration_is_zero_and_kept :
    parseISODurationToSec "PT" = some 0 ∧
    durationFilterKeeps (parseISODurationToSec "PT") = true := by
  decide

/-! ## C10: published_ago_sec is null or non-negative -/

/-- C10: for every item the builder writes, `published_ago_sec` is either
null (no usable publish time) or non-negative; a publish time in the
future relative to build time is clamped to 0 rather than going
negative. -/
theorem published_ago_sec_nonneg :
    (∀ nowMs p v, publishedAgoSec nowMs p = some v → 0 ≤ v) ∧
    (∀ nowMs p, p ≠ 0 → nowMs < p → publishedAgoSec nowMs (some p) = some 0) := by
  constructor
  · intro nowMs p v h
    match p with
    | none => simp [publishedAgoSec] at h
    | some q =>
      by_cases hq : q = 0
      · simp [publishedAgoSec, hq] at h
      · simp only [publishedAgoSec, if_neg hq, Option.some.injEq] at h
        omega
  · intro nowMs p hp hlt
    simp only [publishedAgoSec, if_neg hp, Option.some.injEq]
    have hneg : nowMs - p < 0 := by omega
    obtain ⟨m, hm⟩ : ∃ m, nowMs - p = Int.negSucc m := by
      cases hI : nowMs - p with
      | ofNat k =>
        rw [hI] at hneg
        exact absurd hneg (not_lt.mpr (Int.ofNat_nonneg k))
      | negSucc m => exact ⟨m, rfl⟩
    rw [hm]
    have hfd : Int.fdiv (Int.negSucc m) 1000 = Int.negSucc (m / 1000) := rfl
    rw [hfd]
    exact max_eq_left (le_of_lt (Int.negSucc_lt_zero _))

/-- Witness for C10 at a concrete future publish time. -/
theorem published_ago_sec_nonneg_witness :
    publishedAgoSec 1000 (some 5000) = some 0 :=
  published_ago_sec_nonneg.2 1000 5000 (by decide) (by decide)

/-! ## C6: output validation -/

/-- Characterisation of the item-validation loop: it reports an error iff
some item has an empty required field or a non-numeric view count. -/
theorem validateItems_ne_none (items : List FeedItem) :
    validateItems items ≠ none ↔
      ∃ it ∈ items,
        it.video_id = "" ∨ it.url = "" ∨ it.title = "" ∨ it.views.isNum = false := by
  induction items with
  | nil => simp [validateItems]
  | cons it rest ih =>
    by_cases h1 : it.video_id = "" ∨ it.url = "" ∨ it.title = ""
    · simp only [validateItems, if_pos h1]
      simp only [List.mem_cons]
      constructor
      · intro _
        exact ⟨it, Or.inl rfl, by tauto⟩
      · intro _
        simp
    · by_cases h2 : it.views.isNum
      · simp only [validateItems, if_neg h1, if_pos h2]
        rw [ih]
        constructor
        · rintro ⟨x, hx, hprop⟩
          exact ⟨x, List.mem_cons_of_mem _ hx, hprop⟩
        · rintro ⟨x, hx, hprop⟩
          rcases List.mem_cons.mp hx with heq | hmem
          · subst heq
            rcases hprop with h | h | h | h
            · exact absurd (Or.inl h) h1
            · exact absurd (Or.inr (Or.inl h)) h1
            · exact absurd (Or.inr (Or.inr h)) h1
            · rw [h2] at h; cases h
          · exact ⟨x, hmem, hprop⟩
      · simp only [validateItems, if_neg h1, if_neg h2]
        constructor
        · intro _
          exact ⟨it, List.mem_cons_self _ _, Or.inr (Or.inr (Or.inr (by
            cases hv : it.views.isNum
            · rfl
            · exact absurd hv h2)))⟩
        · intro _
          simp

/-- C6: validation of a built feed document fails exactly when a meta
field is empty, some item misses a required field, or some item's views
value is not a number; and on a validation failure the build aborts
without writing, leaving the previous output untouched. -/
theorem validateLatestJson_spec (f : Feed) :
    (validateLatestJson f ≠ none ↔
      (f.updated_at = "" ∨ f.source = "" ∨ f.region = "" ∨
        ∃ it ∈ f.items,
          it.video_id = "" ∨ it.url = "" ∨ it.title = "" ∨
            it.views.isNum = false)) ∧
    (validateLatestJson f ≠ none → mainWriteStep f = none) := by
  constructor
  · by_cases hm : f.updated_at = "" ∨ f.source = "" ∨ f.region = ""
    · simp only [validateLatestJson, if_pos hm]
      constructor
      · intro _; tauto
      · intro _; simp
    · simp only [validateLatestJson, if_neg hm]
      rw [validateItems_ne_none]
      constructor
      · intro h; exact Or.inr (Or.inr (Or.inr h))
      · intro h
        rcases h with h | h | h | h
        · exact absurd (Or.inl h) hm
        · exact absurd (Or.inr (Or.inl h)) hm
        · exact absurd (Or.inr (Or.inr h)) hm
        · exact h
  · intro h
    match hv : validateLatestJson f with
    | none => exact absurd hv h
    | some e => simp [mainWriteStep, hv]

/-- Witness for C6: a document whose single item carries a string-typed
views value is rejected and nothing is written. -/
theorem validateLatestJson_spec_witness :
    validateLatestJson
        { updated_at := "2025-01-01 00:00 JST", source := "youtube-data-api",
          region := "JP",
          items := [{ video_id := "v", url := "https://youtu.be/v",
                      title := "t", views := .str "120" }] } ≠ none ∧
      mainWriteStep
        { updated_at := "2025-01-01 00:00 JST", source := "youtube-data-api",
          region := "JP",
          items := [{ video_id := "v", url := "https://youtu.be/v",
                      title := "t", views := .str "120" }] } = none :=
  ⟨by decide,
   (validateLatestJson_spec _).2 (by decide)⟩

/-! ## C7: retry policy of fetchJson -/

/-- Retry loop behaviour on an endless run of one transient status: every
allowed attempt is used, each retry sleeps `delayMs * attempt` (a linearly
increasing schedule), and the final attempt's HTTP error propagates. -/
theorem fetchJsonGo_transient (f : Nat → HttpResponse) (d s : Nat)
    (hf : ∀ a, f a = .err s) (ht : transientStatus s = true) :
    ∀ fuel attempt,
      fetchJsonGo f d attempt (fuel + 1) =
        (.httpError s, (List.range' attempt fuel).map (fun a => d * a)) := by
  intro fuel
  induction fuel with
  | zero =>
    intro attempt
    simp [fetchJsonGo, hf attempt]
  | succ k ih =>
    intro attempt
    have hstep : fetchJsonGo f d attempt (k + 1 + 1) =
        ((fetchJsonGo f d (attempt + 1) (k + 1)).1,
          d * attempt :: (fetchJsonGo f d (attempt + 1) (k + 1)).2) := by
      simp [fetchJsonGo, hf attempt, ht]
    rw [hstep, ih (attempt + 1), List.range'_succ]
    simp

/-- C7: a non-OK response with a transient status (quota/rate-limit 403 or
429, or server errors 500/502/503/504) is retried with linearly increasing
delay up to the attempt ceiling `retries`, after which the HTTP error
propagates; a non-OK response with any other 4xx status fails immediately
with no retry and no delay. -/
theorem fetchJson_retry_policy (f : Nat → HttpResponse) (retries d s : Nat)
    (hr : 1 ≤ retries) :
    ((∀ a, f a = .err s) → transientStatus s = true →
      fetchJson f retries d =
        (.httpError s, (List.range' 1 (retries - 1)).map (fun a => d * a))) ∧
    (f 1 = .err s → transientStatus s = false → 400 ≤ s → s < 500 →
      fetchJson f retries d = (.httpError s, [])) := by
  obtain ⟨k, rfl⟩ : ∃ k, retries = k + 1 := ⟨retries - 1, by omega⟩
  constructor
  · intro hf ht
    unfold fetchJson
    rw [fetchJsonGo_transient f d s hf ht k 1]
    simp
  · intro hf ht _ _
    simp [fetchJson, fetchJsonGo, hf, ht]

/-- Witness for C7: three transient 503s exhaust the three attempts with
delays 400 and 800 then propagate; a 404 on the first attempt fails at
once with no delays. -/
theorem fetchJson_retry_policy_witness :
    fetchJson (fun _ => .err 503) 3 400 = (.httpError 503, [400, 800]) ∧
    fetchJson (fun a => if a = 1 then .err 404 else .ok "x") 3 400 =
      (.httpError 404, []) :=
  ⟨((fetchJson_retry_policy (fun _ => .err 503) 3 400 503 (by decide)).1
      (fun _ => rfl) (by decide)).trans (by decide),
   (fetchJson_retry_policy (fun a => if a = 1 then .err 404 else .ok "x")
      3 400 404 (by decide)).2 rfl (by decide) (by decide) (by decide)⟩

/-! ## C8: CLI caps are not clamped -/

/-- Counterexample to C8: `--max` and `--perQuery` values far above any
platform bound (the platform page-size maximum and the bulk-lookup chunk
constant in this code base are both 50) are accepted unchanged, and the
per-query value is placed verbatim in the search request's `maxResults`
parameter: no clamping exists. -/
theorem parseArgs_clamp_counterexample :
    (parseArgs ["--max", "999999", "--perQuery", "999"]).maxItems = 999999 ∧
    (parseArgs ["--max", "999999", "--perQuery", "999"]).perQuery = 999 ∧
    (searchParamsOf "shorts" "2025-01-01T00:00:00.000Z"
        (parseArgs ["--max", "999999", "--perQuery", "999"]).perQuery).maxResults
      = 999 ∧
    (50 : Int) < 999 ∧ (50 : Int) < 999999 := by
  decide

/-- C8 (amended): any positive finite integer supplied to `--max` or
`--perQuery` becomes the effective cap unchanged — the only normalisation
is the replacement of non-finite or non-positive values by the defaults —
and the per-query value is sent to the search endpoint verbatim as
`maxResults`. -/
theorem parseArgs_passthrough (s : String) (n : Int)
    (hs : jsNumber s = some n) (hn : 0 < n) :
    (parseArgs ["--max", s]).maxItems = n ∧
    (parseArgs ["--perQuery", s]).perQuery = n ∧
    ∀ q pub, (searchParamsOf q pub
        ((parseArgs ["--perQuery", s]).perQuery)).maxResults = n := by
  have h' : ¬ n ≤ 0 := by omega
  have hmax : (parseArgs ["--max", s]).maxItems = n := by
    simp [parseArgs, parseArgsGo, validatePos, hs, h']
  have hper : (parseArgs ["--perQuery", s]).perQuery = n := by
    simp [parseArgs, parseArgsGo, validatePos, hs, h']
  exact ⟨hmax, hper, fun q pub => by simp [searchParamsOf, hper]⟩

/-- Witness for C8 (amended) at the concrete value 999. -/
theorem parseArgs_passthrough_witness :
    (parseArgs ["--max", "999"]).maxItems = 999 ∧
    (parseArgs ["--perQuery", "999"]).perQuery = 999 ∧
    (searchParamsOf "shorts" "2025-01-01T00:00:00.000Z"
        ((parseArgs ["--perQuery", "999"]).perQuery)).maxResults = 999 :=
  ⟨(parseArgs_passthrough "999" 999 (by decide) (by decide)).1,
   (parseArgs_passthrough "999" 999 (by decide) (by decide)).2.1,
   (parseArgs_passthrough "999" 999 (by decide) (by decide)).2.2
     "shorts" "2025-01-01T00:00:00.000Z"⟩

/-! ## C3: the query collector -/

/-- Membership in the set after one `Set.add`. -/
theorem mem_addId (s : List String) (i x : String) :
    x ∈ addId s i ↔ x ∈ s ∨ x = i := by
  by_cases h : i ∈ s
  · simp only [addId, if_pos h]
    constructor
    · exact Or.inl
    · rintro (hx | rfl)
      · exact hx
      · exact h
  · simp [addId, if_neg h]

/-- Adding an element preserves freedom from duplicates. -/
theorem nodup_addId (s : List String) (i : String) (hs : s.Nodup) :
    (addId s i).Nodup := by
  by_cases h : i ∈ s
  · simpa [addId, if_pos h] using hs
  · simp only [addId, if_neg h]
    rw [List.nodup_append]
    exact ⟨hs, List.nodup_singleton i, by
      intro x hx
      simp only [List.mem_singleton]
      intro rfl_eq
      subst rfl_eq
      exact h hx⟩

/-- Folding a list of ids into the set: membership. -/
theorem mem_foldl_addId (l : List String) :
    ∀ s x, x ∈ l.foldl addId s ↔ x ∈ s ∨ x ∈ l := by
  induction l with
  | nil => simp
  | cons i rest ih =>
    intro s x
    simp only [List.foldl_cons, ih, mem_addId, List.mem_cons]
    tauto

/-- Folding a list of ids into the set: no duplicates appear. -/
theorem nodup_foldl_addId (l : List String) :
    ∀ s, s.Nodup → (l.foldl addId s).Nodup := by
  induction l with
  | nil => exact fun s h => h
  | cons i rest ih =>
    intro s hs
    exact ih _ (nodup_addId s i hs)

/-- Collector fold over the whole query list: membership. -/
theorem mem_collect_go (results : List (List String)) :
    ∀ s x, x ∈ results.foldl (fun s ids => ids.foldl addId s) s ↔
      x ∈ s ∨ ∃ q ∈ results, x ∈ q := by
  induction results with
  | nil => simp
  | cons ids rest ih =>
    intro s x
    simp only [List.foldl_cons, ih, mem_foldl_addId, List.mem_cons]
    constructor
    · rintro ((hx | hx) | ⟨q, hq, hx⟩)
      · exact Or.inl hx
      · exact Or.inr ⟨ids, Or.inl rfl, hx⟩
      · exact Or.inr ⟨q, Or.inr hq, hx⟩
    · rintro (hx | ⟨q, hq | hq, hx⟩)
      · exact Or.inl (Or.inl hx)
      · subst hq; exact Or.inl (Or.inr hx)
      · exact Or.inr ⟨q, hq, hx⟩

/-- C3 (amended): the collected identifier list is duplicate-free and
contains exactly the identifiers returned by the queries — every query in
the fixed list is always issued and fully accumulated; there is no early
stop at the target total, no cap during collection (truncation to
`maxItems` happens only after ranking), and no fallback query. -/
theorem collectIds_spec (results : List (List String)) :
    (collectIds results).Nodup ∧
    ∀ x, x ∈ collectIds results ↔ ∃ q ∈ results, x ∈ q := by
  constructor
  · have : ∀ (rs : List (List String)) (s : List String), s.Nodup →
        (rs.foldl (fun s ids => ids.foldl addId s) s).Nodup := by
      intro rs
      induction rs with
      | nil => exact fun s h => h
      | cons ids rest ih =>
        intro s hs
        exact ih _ (nodup_foldl_addId ids s hs)
    exact this results [] (List.nodup_nil)
  · intro x
    rw [show collectIds results =
        results.foldl (fun s ids => ids.foldl addId s) [] from rfl,
      mem_collect_go]
    simp

/-- Counterexample to C3: with a target total of 1 (`--max 1`), two queries
each returning one fresh id still both contribute — the collected set has
size 2, exceeding the target, and the second query is issued although the
target was already reached after the first. -/
theorem collectIds_target_counterexample :
    (parseArgs ["--max", "1"]).maxItems = 1 ∧
    collectIds [["a"], ["b"]] = ["a", "b"] ∧
    (parseArgs ["--max", "1"]).maxItems <
      ((collectIds [["a"], ["b"]]).length : Int) := by
  decide

/-! ## C4: ranking by view count -/

/-- Stable insertion is a permutation of consing. -/
theorem insertViews_perm (x : RItem) (l : List RItem) :
    (insertViews x l).Perm (x :: l) := by
  induction l with
  | nil => exact List.Perm.refl _
  | cons y ys ih =>
    by_cases h : viewsKey y ≤ viewsKey x
    · rw [insertViews, if_pos h]
    · rw [insertViews, if_neg h]
      exact (ih.cons y).trans (List.Perm.swap x y ys)

/-- Membership after stable insertion. -/
theorem mem_insertViews (x z : RItem) (l : List RItem) :
    z ∈ insertViews x l ↔ z = x ∨ z ∈ l := by
  rw [(insertViews_perm x l).mem_iff, List.mem_cons]

/-- Stable insertion preserves descending order of the view-count key. -/
theorem pairwise_insertViews (x : RItem) (l : List RItem)
    (hl : l.Pairwise (fun a b => viewsKey b ≤ viewsKey a)) :
    (insertViews x l).Pairwise (fun a b => viewsKey b ≤ viewsKey a) := by
  induction l with
  | nil => simp [insertViews]
  | cons y ys ih =>
    rw [List.pairwise_cons] at hl
    obtain ⟨hy, hys⟩ := hl
    by_cases h : viewsKey y ≤ viewsKey x
    · rw [insertViews, if_pos h]
      rw [List.pairwise_cons]
      refine ⟨?_, List.pairwise_cons.mpr ⟨hy, hys⟩⟩
      intro z hz
      rcases List.mem_cons.mp hz with rfl | hz
      · exact h
      · exact le_trans (hy z hz) h
    · rw [insertViews, if_neg h]
      rw [List.pairwise_cons]
      refine ⟨?_, ih hys⟩
      intro z hz
      rcases (mem_insertViews x z ys).mp hz with rfl | hz
      · exact le_of_lt (lt_of_not_le h)
      · exact hy z hz

/-- Inserting an element with key `k` leaves it in front of the equal-key
block: elements passed over on the way in have strictly larger keys. -/
theorem filter_insertViews_eq (x : RItem) (l : List RItem) (k : Int)
    (hx : viewsKey x = k) :
    (insertViews x l).filter (fun it => decide (viewsKey it = k)) =
      x :: l.filter (fun it => decide (viewsKey it = k)) := by
  induction l with
  | nil => simp [insertViews, hx]
  | cons y ys ih =>
    by_cases h : viewsKey y ≤ viewsKey x
    · rw [insertViews, if_pos h]
      simp [List.filter_cons, hx]
    · rw [insertViews, if_neg h]
      have hy : ¬ viewsKey y = k := by
        intro hk
        exact h (by rw [hk, hx])
      simp only [List.filter_cons, decide_eq_true_eq, if_neg hy, ih]

/-- Inserting an element with a different key does not disturb the
`k`-key block. -/
theorem filter_insertViews_ne (x : RItem) (l : List RItem) (k : Int)
    (hx : ¬ viewsKey x = k) :
    (insertViews x l).filter (fun it => decide (viewsKey it = k)) =
      l.filter (fun it => decide (viewsKey it = k)) := by
  induction l with
  | nil => simp [insertViews, hx]
  | cons y ys ih =>
    by_cases h : viewsKey y ≤ viewsKey x
    · rw [insertViews, if_pos h]
      simp [List.filter_cons, hx]
    · rw [insertViews, if_neg h]
      simp only [List.filter_cons, ih]

/-- C4 (amended): the ranking sort is a permutation, descending in the
key `views ?? 0`, and stable (each equal-key block keeps its original
order). Since a null view count coalesces to 0, null-view items sort after
every item with positive views but tie with zero-view items instead of
sorting after them. -/
theorem sortViewsDesc_spec (l : List RItem) :
    (sortViewsDesc l).Perm l ∧
    (sortViewsDesc l).Pairwise (fun a b => viewsKey b ≤ viewsKey a) ∧
    ∀ k, (sortViewsDesc l).filter (fun it => decide (viewsKey it = k)) =
      l.filter (fun it => decide (viewsKey it = k)) := by
  induction l with
  | nil => exact ⟨List.Perm.refl _, List.Pairwise.nil, fun k => rfl⟩
  | cons a l ih =>
    obtain ⟨hperm, hsorted, hstable⟩ := ih
    refine ⟨?_, ?_, ?_⟩
    · exact (insertViews_perm a (sortViewsDesc l)).trans (hperm.cons a)
    · exact pairwise_insertViews a _ hsorted
    · intro k
      show (insertViews a (sortViewsDesc l)).filter _ = _
      by_cases ha : viewsKey a = k
      · rw [filter_insertViews_eq a _ k ha, hstable k,
          List.filter_cons, if_pos (by simp [ha])]
      · rw [filter_insertViews_ne a _ k ha, hstable k,
          List.filter_cons, if_neg (by simp [ha])]

/-- Counterexample to C4: an item with a null view count ties with (not
sorts after) an item whose known view count is 0 — the null item stays in
front. -/
theorem sortViewsDesc_null_counterexample :
    sortViewsDesc
        [⟨"A", "", "", "", "", "", none, none⟩,
         ⟨"B", "", "", "", "", "", some 0, none⟩] =
      [⟨"A", "", "", "", "", "", none, none⟩,
       ⟨"B", "", "", "", "", "", some 0, none⟩] ∧
    (⟨"A", "", "", "", "", "", none, none⟩ : RItem).views = none ∧
    (⟨"B", "", "", "", "", "", some 0, none⟩ : RItem).views = some 0 := by
  decide

/-! ## C1: the topic classifier -/

/-- The scanning prefix test agrees with the slice characterisation. -/
theorem startsWithL_iff (p : List Char) :
    ∀ s, startsWithL p s = true ↔ s.take p.length = p := by
  induction p with
  | nil => intro s; simp [startsWithL]
  | cons c cs ih =>
    intro s
    cases s with
    | nil => simp [startsWithL]
    | cons d ds =>
      simp only [startsWithL, Bool.and_eq_true, decide_eq_true_eq,
        List.length_cons, List.take_succ_cons, List.cons.injEq, ih ds]
      constructor
      · rintro ⟨h1, h2⟩; exact ⟨h1.symm, h2⟩
      · rintro ⟨h1, h2⟩; exact ⟨h1.symm, h2⟩

/-- Boolean form of the prefix test. -/
theorem startsWithL_eq (p s : List Char) :
    startsWithL p s = decide (s.take p.length = p) := by
  by_cases h : s.take p.length = p
  · simp [h, (startsWithL_iff p s).mpr h]
  · have hb : startsWithL p s ≠ true :=
      fun hc => h ((startsWithL_iff p s).mp hc)
    simp [h, Bool.eq_false_iff.mpr hb]

/-- Unfolding of the positional substring test over a cons cell. -/
theorem occursAt_cons (pat : List Char) (c : Char) (cs : List Char) :
    occursAt pat (c :: cs) =
      (decide ((c :: cs).take pat.length = pat) || occursAt pat cs) := by
  unfold occursAt
  rw [show (c :: cs).length + 1 = cs.length + 1 + 1 from by simp,
    List.range_succ_eq_map]
  rw [List.any_cons, List.any_map]
  simp only [List.drop_zero]
  have hfun :
      ((fun i => decide (List.take pat.length (List.drop i (c :: cs)) = pat))
          ∘ Nat.succ) =
        (fun i => decide (List.take pat.length (List.drop i cs) = pat)) := by
    funext i
    simp [Function.comp, List.drop_succ_cons]
  rw [hfun]

/-- The scanning substring test of the code agrees with the positional
substring test of the spec. -/
theorem hasSub_eq_occursAt (pat : List Char) :
    ∀ s, hasSub pat s = occursAt pat s := by
  intro s
  induction s with
  | nil =>
    show startsWithL pat [] = occursAt pat []
    rw [startsWithL_eq]
    simp [occursAt, List.range_succ]
  | cons c cs ih =>
    rw [show hasSub pat (c :: cs) =
        (startsWithL pat (c :: cs) || hasSub pat cs) from rfl,
      occursAt_cons, startsWithL_eq, ih]

/-- The code's per-rule keyword test agrees with the spec-side one. -/
theorem ruleMatches_eq (t : String) (r : TopicRule) :
    ruleMatches t r = ruleMatchesSpec t r := by
  unfold ruleMatches ruleMatchesSpec strIncludes
  congr 1
  funext k
  exact hasSub_eq_occursAt (jsLower k).data t.data

/-- The classifier loop returns the label of the first matching rule of
the list, and the fallback label when none matches. -/
theorem classifyGo_eq_find (t : String) : ∀ rs : List TopicRule,
    classifyGo t rs =
      (match rs.find? (fun r => ruleMatchesSpec t r) with
        | some r => r.topic
        | none => "未分類") := by
  intro rs
  induction rs with
  | nil => rfl
  | cons r rest ih =>
    rw [show classifyGo t (r :: rest) =
        if ruleMatches t r then r.topic else classifyGo t rest from rfl,
      ruleMatches_eq]
    by_cases h : ruleMatchesSpec t r = true
    · rw [if_pos h, List.find?_cons_of_pos _ h]
    · rw [if_neg h, List.find?_cons_of_neg _ h, ih]

/-- C1 (amended): the classifier assigns the label of the first rule, in
the fixed priority order of the ruleset, with a keyword occurring as a
case-insensitive substring of the lowercased title alone — the channel
name is not consulted — and the fallback label otherwise. -/
theorem topicFromTitle_eq_spec (title : String) :
    topicFromTitle title = topicSpec title := by
  unfold topicFromTitle topicSpec
  exact classifyGo_eq_find (jsLower title) topicRules

/-- Counterexample to C1: a video whose channel name contains the rule-2
keyword 筋トレ while its title matches no keyword is classified 未分類 by
the code, while the claim's concatenated title+channel classifier assigns
筋トレ. -/
theorem topic_channel_counterexample :
    candidateTopic "今日のvlog" "筋トレ部屋" = "未分類" ∧
    topicSpecConcat "今日のvlog" "筋トレ部屋" = "筋トレ" := by
  decide

/-! ## C5: the ISO-8601 duration parser

The supported subset, written from the claim: `PT#H#M#S` with any subset of
the three components present, each `#` a nonempty digit run. -/

/-- A well-formed optional component: absent, or a nonempty digit run. -/
def GoodGroup : Option (List Char) → Prop
  | none => True
  | some ds => ds ≠ [] ∧ ∀ c ∈ ds, Char.isDigit c = true

/-- Text contributed by an optional component: digits followed by the unit
letter, or nothing. -/
def groupStr : Option (List Char) → Char → List Char
  | none, _ => []
  | some ds, u => ds ++ [u]

/-- Numeric value of an optional component (0 when absent). -/
def groupVal : Option (List Char) → Nat
  | none => 0
  | some ds => digitsToNat ds

/-- The text `PT#H#M#S` of a duration in the supported subset. -/
def durationShape (hd md sd : Option (List Char)) : List Char :=
  'P' :: 'T' :: (groupStr hd 'H' ++ (groupStr md 'M' ++ groupStr sd 'S'))

/-- Splitting a list at its first non-`p` element. -/
theorem takeWhile_dropWhile_append (p : Char → Bool) (ds : List Char)
    (x : Char) (rs : List Char)
    (hds : ∀ c ∈ ds, p c = true) (hx : p x = false) :
    (ds ++ x :: rs).takeWhile p = ds ∧ (ds ++ x :: rs).dropWhile p = x :: rs := by
  induction ds with
  | nil => simp [List.takeWhile_cons, List.dropWhile_cons, hx]
  | cons d ds ih =>
    have hd : p d = true := hds d (by simp)
    have hds' : ∀ c ∈ ds, p c = true := fun c hc => hds c (by simp [hc])
    obtain ⟨h1, h2⟩ := ih hds'
    simp [List.takeWhile_cons, List.dropWhile_cons, hd, h1, h2]

/-- Every element of a `takeWhile` satisfies the predicate. -/
theorem mem_takeWhile_pred (p : Char → Bool) :
    ∀ (l : List Char) (c : Char), c ∈ l.takeWhile p → p c = true := by
  intro l
  induction l with
  | nil => simp
  | cons d ds ih =>
    intro c hc
    rw [List.takeWhile_cons] at hc
    by_cases hd : p d
    · rw [if_pos hd] at hc
      rcases List.mem_cons.mp hc with rfl | hc
      · exact hd
      · exact ih c hc
    · rw [if_neg hd] at hc
      cases hc

/-- A digit run followed by a non-digit splits uniquely. -/
theorem digit_split_unique (ds₁ ds₂ : List Char) (x₁ x₂ : Char)
    (r₁ r₂ : List Char)
    (h1 : ∀ c ∈ ds₁, Char.isDigit c = true) (hx1 : Char.isDigit x₁ = false)
    (h2 : ∀ c ∈ ds₂, Char.isDigit c = true) (hx2 : Char.isDigit x₂ = false)
    (heq : ds₁ ++ x₁ :: r₁ = ds₂ ++ x₂ :: r₂) :
    ds₁ = ds₂ ∧ x₁ = x₂ ∧ r₁ = r₂ := by
  have e1 := takeWhile_dropWhile_append Char.isDigit ds₁ x₁ r₁ h1 hx1
  have e2 := takeWhile_dropWhile_append Char.isDigit ds₂ x₂ r₂ h2 hx2
  rw [heq] at e1
  have hds : ds₁ = ds₂ := e1.1.symm.trans e2.1
  have hdrop : x₁ :: r₁ = x₂ :: r₂ := e1.2.symm.trans e2.2
  injection hdrop with ha hb
  exact ⟨hds, ha, hb⟩

/-- A regex group succeeds on a nonempty digit run followed by its unit
letter, consuming the group. -/
theorem parseGroup_some (u : Char) (ds rest : List Char)
    (hne : ds ≠ []) (hds : ∀ c ∈ ds, Char.isDigit c = true)
    (hu : Char.isDigit u = false) :
    parseGroup u (ds ++ u :: rest) = (some (digitsToNat ds), rest) := by
  obtain ⟨h1, h2⟩ := takeWhile_dropWhile_append Char.isDigit ds u rest hds hu
  cases ds with
  | nil => exact absurd rfl hne
  | cons d ds' =>
    simp only [parseGroup, h1, h2]
    simp

/-- A regex group consumes nothing on the empty remainder. -/
theorem parseGroup_nil (u : Char) : parseGroup u [] = (none, []) := rfl

/-- A regex group consumes nothing when the remainder does not start with
a digit run followed by this group's unit letter. -/
theorem parseGroup_skip (u : Char) (cs : List Char)
    (h : ∀ ds rs, (∀ c ∈ ds, Char.isDigit c = true) → cs ≠ ds ++ u :: rs) :
    parseGroup u cs = (none, cs) := by
  rcases htw : cs.takeWhile Char.isDigit with _ | ⟨d, ds'⟩
  · simp [parseGroup, htw]
  · rcases hdw : cs.dropWhile Char.isDigit with _ | ⟨c, rest⟩
    · simp [parseGroup, htw, hdw]
    · by_cases hc : c = u
      · exfalso
        have hcs : cs = (d :: ds') ++ c :: rest := by
          rw [← htw, ← hdw, List.takeWhile_append_dropWhile]
        rw [hc] at hcs
        exact h (d :: ds') rest
          (fun ch hch => mem_takeWhile_pred Char.isDigit cs ch (htw ▸ hch)) hcs
      · simp [parseGroup, htw, hdw, hc]

/-- Inversion of a regex group: either it consumed nothing, or the
remainder started with a nonempty digit run followed by the unit
letter. -/
theorem parseGroup_inv (u : Char) (cs : List Char) (o : Option Nat)
    (r : List Char) (h : parseGroup u cs = (o, r)) :
    (o = none ∧ r = cs) ∨
      ∃ ds, ds ≠ [] ∧ (∀ c ∈ ds, Char.isDigit c = true) ∧
        cs = ds ++ u :: r ∧ o = some (digitsToNat ds) := by
  rcases htw : cs.takeWhile Char.isDigit with _ | ⟨d, ds'⟩
  · rw [show parseGroup u cs = (none, cs) from by simp [parseGroup, htw]] at h
    injection h with h1 h2
    exact Or.inl ⟨h1.symm, h2.symm⟩
  · rcases hdw : cs.dropWhile Char.isDigit with _ | ⟨c, rest⟩
    · rw [show parseGroup u cs = (none, cs) from by
        simp [parseGroup, htw, hdw]] at h
      injection h with h1 h2
      exact Or.inl ⟨h1.symm, h2.symm⟩
    · by_cases hc : c = u
      · rw [show parseGroup u cs = (some (digitsToNat (d :: ds')), rest) from by
          simp [parseGroup, htw, hdw, hc]] at h
        injection h with h1 h2
        refine Or.inr ⟨d :: ds', by simp, ?_, ?_, h1.symm⟩
        · exact fun ch hch => mem_takeWhile_pred Char.isDigit cs ch (htw ▸ hch)
        · rw [← h2, ← hc, ← htw, ← hdw, List.takeWhile_append_dropWhile]
      · rw [show parseGroup u cs = (none, cs) from by
          simp [parseGroup, htw, hdw, hc]] at h
        injection h with h1 h2
        exact Or.inl ⟨h1.symm, h2.symm⟩

/-- Unfolding of the parser past its `PT` prefix. -/
theorem parse_pt (rest : List Char) :
    parseISODurationToSec ⟨'P' :: 'T' :: rest⟩ =
      (match (parseGroup 'S' (parseGroup 'M' (parseGroup 'H' rest).2).2).2 with
       | [] =>
         some ((parseGroup 'H' rest).1.getD 0 * 3600 +
           (parseGroup 'M' (parseGroup 'H' rest).2).1.getD 0 * 60 +
           (parseGroup 'S' (parseGroup 'M' (parseGroup 'H' rest).2).2).1.getD 0)
       | _ :: _ => none) := rfl

/-- A later group's text never starts with an earlier group's unit
letter. -/
theorem parseGroup_skip_groups (u : Char) (hu : Char.isDigit u = false)
    (md sd : Option (List Char)) (gmd : GoodGroup md) (gsd : GoodGroup sd)
    (hm : u ≠ 'M') (hs : u ≠ 'S') :
    parseGroup u (groupStr md 'M' ++ groupStr sd 'S') =
      (none, groupStr md 'M' ++ groupStr sd 'S') := by
  apply parseGroup_skip
  intro ds rs hds hceq
  rcases md with _ | dsm
  · rcases sd with _ | dss
    · simp [groupStr] at hceq
    · have hshape : groupStr none 'M' ++ groupStr (some dss) 'S' =
          dss ++ 'S' :: [] := by simp [groupStr]
      rw [hshape] at hceq
      obtain ⟨_, hxu, _⟩ := digit_split_unique dss ds 'S' u [] rs
        gsd.2 (by decide) hds hu hceq
      exact hs hxu.symm
  · have hshape : groupStr (some dsm) 'M' ++ groupStr sd 'S' =
        dsm ++ 'M' :: groupStr sd 'S' := by simp [groupStr]
    rw [hshape] at hceq
    obtain ⟨_, hxu, _⟩ := digit_split_unique dsm ds 'M' u (groupStr sd 'S') rs
      gmd.2 (by decide) hds hu hceq
    exact hm hxu.symm

/-- The seconds group's text never starts with the minutes letter. -/
theorem parseGroup_skip_sgroup (u : Char) (hu : Char.isDigit u = false)
    (sd : Option (List Char)) (gsd : GoodGroup sd) (hs : u ≠ 'S') :
    parseGroup u (groupStr sd 'S') = (none, groupStr sd 'S') := by
  apply parseGroup_skip
  intro ds rs hds hceq
  rcases sd with _ | dss
  · simp [groupStr] at hceq
  · have hshape : groupStr (some dss) 'S' = dss ++ 'S' :: [] := by
      simp [groupStr]
    rw [hshape] at hceq
    obtain ⟨_, hxu, _⟩ := digit_split_unique dss ds 'S' u [] rs
      gsd.2 (by decide) hds hu hceq
    exact hs hxu.symm

/-- The value the parser reads from an optional component. -/
theorem groupVal_getD (o : Option (List Char)) :
    (o.map digitsToNat).getD 0 = groupVal o := by
  rcases o with _ | ds <;> rfl

/-- Soundness: every duration text in the supported subset parses to its
exact integer-second value. -/
theorem parse_sound (hd md sd : Option (List Char))
    (ghd : GoodGroup hd) (gmd : GoodGroup md) (gsd : GoodGroup sd) :
    parseISODurationToSec ⟨durationShape hd md sd⟩ =
      some (3600 * groupVal hd + 60 * groupVal md + groupVal sd) := by
  rw [show (⟨durationShape hd md sd⟩ : String) =
      ⟨'P' :: 'T' :: (groupStr hd 'H' ++ (groupStr md 'M' ++ groupStr sd 'S'))⟩
    from rfl, parse_pt]
  have hH : parseGroup 'H' (groupStr hd 'H' ++ (groupStr md 'M' ++ groupStr sd 'S')) =
      (hd.map digitsToNat, groupStr md 'M' ++ groupStr sd 'S') := by
    rcases hd with _ | dsh
    · simpa [groupStr] using
        parseGroup_skip_groups 'H' (by decide) md sd gmd gsd
          (by decide) (by decide)
    · rw [show groupStr (some dsh) 'H' ++ (groupStr md 'M' ++ groupStr sd 'S') =
          dsh ++ 'H' :: (groupStr md 'M' ++ groupStr sd 'S') from by
            simp [groupStr]]
      exact parseGroup_some 'H' dsh _ ghd.1 ghd.2 (by decide)
  have hM : parseGroup 'M' (groupStr md 'M' ++ groupStr sd 'S') =
      (md.map digitsToNat, groupStr sd 'S') := by
    rcases md with _ | dsm
    · simpa [groupStr] using
        parseGroup_skip_sgroup 'M' (by decide) sd gsd (by decide)
    · rw [show groupStr (some dsm) 'M' ++ groupStr sd 'S' =
          dsm ++ 'M' :: groupStr sd 'S' from by simp [groupStr]]
      exact parseGroup_some 'M' dsm _ gmd.1 gmd.2 (by decide)
  have hS : parseGroup 'S' (groupStr sd 'S') =
      (sd.map digitsToNat, ([] : List Char)) := by
    rcases sd with _ | dss
    · exact parseGroup_nil 'S'
    · rw [show groupStr (some dss) 'S' = dss ++ 'S' :: [] from by
        simp [groupStr]]
      exact parseGroup_some 'S' dss [] gsd.1 gsd.2 (by decide)
  rw [hH]
  simp only
  rw [hM]
  simp only
  rw [hS]
  simp only [groupVal_getD]
  congr 1
  ring

/-- Completeness: a successful parse exhibits a decomposition of the input
into the supported subset shape with the matching value. -/
theorem parse_complete (iso : String) (n : Nat)
    (h : parseISODurationToSec iso = some n) :
    ∃ hd md sd, GoodGroup hd ∧ GoodGroup md ∧ GoodGroup sd ∧
      iso.data = durationShape hd md sd ∧
      n = 3600 * groupVal hd + 60 * groupVal md + groupVal sd := by
  unfold parseISODurationToSec at h
  split at h
  case h_2 => exact absurd h (by simp)
  case h_1 c2 rest heq =>
    simp only at h
    split at h
    case h_2 => exact absurd h (by simp)
    case h_1 hr3 =>
      injection h with hval
      rcases parseGroup_inv 'H' rest (parseGroup 'H' rest).1 (parseGroup 'H' rest).2 rfl with
        ⟨hoH, hrH⟩ | ⟨dsh, hneH, hdigH, hcsH, hoH⟩
      · rcases parseGroup_inv 'M' (parseGroup 'H' rest).2 (parseGroup 'M' (parseGroup 'H' rest).2).1 (parseGroup 'M' (parseGroup 'H' rest).2).2 rfl with
          ⟨hoM, hrM⟩ | ⟨dsm, hneM, hdigM, hcsM, hoM⟩
        · rcases parseGroup_inv 'S' (parseGroup 'M' (parseGroup 'H' rest).2).2 (parseGroup 'S' (parseGroup 'M' (parseGroup 'H' rest).2).2).1 (parseGroup 'S' (parseGroup 'M' (parseGroup 'H' rest).2).2).2 rfl with
            ⟨hoS, hrS⟩ | ⟨dss, hneS, hdigS, hcsS, hoS⟩
          · refine ⟨none, none, none, trivial, trivial, trivial, ?_, ?_⟩
            · rw [heq]
              have : rest = [] := by rw [← hrH, ← hrM, ← hrS, hr3]
              simp [durationShape, groupStr, this]
            · rw [← hval, hoH, hoM, hoS]
              simp [groupVal, Nat.mul_comm]
          · refine ⟨none, none, some dss, trivial, trivial, ⟨hneS, hdigS⟩, ?_, ?_⟩
            · rw [heq]
              have : rest = dss ++ 'S' :: [] := by
                rw [← hrH, ← hrM, hcsS, hr3]
              simp [durationShape, groupStr, this]
            · rw [← hval, hoH, hoM, hoS]
              simp [groupVal, Nat.mul_comm]
        · rcases parseGroup_inv 'S' (parseGroup 'M' (parseGroup 'H' rest).2).2 (parseGroup 'S' (parseGroup 'M' (parseGroup 'H' rest).2).2).1 (parseGroup 'S' (parseGroup 'M' (parseGroup 'H' rest).2).2).2 rfl with
            ⟨hoS, hrS⟩ | ⟨dss, hneS, hdigS, hcsS, hoS⟩
          · refine ⟨none, some dsm, none, trivial, ⟨hneM, hdigM⟩, trivial, ?_, ?_⟩
            · rw [heq]
              have h2 : (parseGroup 'M' (parseGroup 'H' rest).2).2 = [] := by
                rw [← hrS, hr3]
              have : rest = dsm ++ 'M' :: [] := by
                rw [← hrH, hcsM, h2]
              simp [durationShape, groupStr, this]
            · rw [← hval, hoH, hoM, hoS]
              simp [groupVal, Nat.mul_comm]
          · refine ⟨none, some dsm, some dss,
              trivial, ⟨hneM, hdigM⟩, ⟨hneS, hdigS⟩, ?_, ?_⟩
            · rw [heq]
              have h2 : (parseGroup 'M' (parseGroup 'H' rest).2).2 =
                  dss ++ 'S' :: [] := by rw [hcsS, hr3]
              have : rest = dsm ++ 'M' :: (dss ++ 'S' :: []) := by
                rw [← hrH, hcsM, h2]
              simp [durationShape, groupStr, this]
            · rw [← hval, hoH, hoM, hoS]
              simp [groupVal, Nat.mul_comm]
      · rcases parseGroup_inv 'M' (parseGroup 'H' rest).2 (parseGroup 'M' (parseGroup 'H' rest).2).1 (parseGroup 'M' (parseGroup 'H' rest).2).2 rfl with
          ⟨hoM, hrM⟩ | ⟨dsm, hneM, hdigM, hcsM, hoM⟩
        · rcases parseGroup_inv 'S' (parseGroup 'M' (parseGroup 'H' rest).2).2 (parseGroup 'S' (parseGroup 'M' (parseGroup 'H' rest).2).2).1 (parseGroup 'S' (parseGroup 'M' (parseGroup 'H' rest).2).2).2 rfl with
            ⟨hoS, hrS⟩ | ⟨dss, hneS, hdigS, hcsS, hoS⟩
          · refine ⟨some dsh, none, none, ⟨hneH, hdigH⟩, trivial, trivial, ?_, ?_⟩
            · rw [heq]
              have h1 : (parseGroup 'H' rest).2 = [] := by
                rw [← hrM, ← hrS, hr3]
              have : rest = dsh ++ 'H' :: [] := by rw [hcsH, h1]
              simp [durationShape, groupStr, this]
            · rw [← hval, hoH, hoM, hoS]
              simp [groupVal, Nat.mul_comm]
          · refine ⟨some dsh, none, some dss,
              ⟨hneH, hdigH⟩, trivial, ⟨hneS, hdigS⟩, ?_, ?_⟩
            · rw [heq]
              have h1 : (parseGroup 'H' rest).2 = dss ++ 'S' :: [] := by
                rw [← hrM, hcsS, hr3]
              have : rest = dsh ++ 'H' :: (dss ++ 'S' :: []) := by
                rw [hcsH, h1]
              simp [durationShape, groupStr, this]
            · rw [← hval, hoH, hoM, hoS]
              simp [groupVal, Nat.mul_comm]
        · rcases parseGroup_inv 'S' (parseGroup 'M' (parseGroup 'H' rest).2).2 (parseGroup 'S' (parseGroup 'M' (parseGroup 'H' rest).2).2).1 (parseGroup 'S' (parseGroup 'M' (parseGroup 'H' rest).2).2).2 rfl with
            ⟨hoS, hrS⟩ | ⟨dss, hneS, hdigS, hcsS, hoS⟩
          · refine ⟨some dsh, some dsm, none,
              ⟨hneH, hdigH⟩, ⟨hneM, hdigM⟩, trivial, ?_, ?_⟩
            · rw [heq]
              have h2 : (parseGroup 'M' (parseGroup 'H' rest).2).2 = [] := by
                rw [← hrS, hr3]
              have h1 : (parseGroup 'H' rest).2 = dsm ++ 'M' :: [] := by
                rw [hcsM, h2]
              have : rest = dsh ++ 'H' :: (dsm ++ 'M' :: []) := by
                rw [hcsH, h1]
              simp [durationShape, groupStr, this]
            · rw [← hval, hoH, hoM, hoS]
              simp [groupVal, Nat.mul_comm]
          · refine ⟨some dsh, some dsm, some dss,
              ⟨hneH, hdigH⟩, ⟨hneM, hdigM⟩, ⟨hneS, hdigS⟩, ?_, ?_⟩
            · rw [heq]
              have h2 : (parseGroup 'M' (parseGroup 'H' rest).2).2 =
                  dss ++ 'S' :: [] := by rw [hcsS, hr3]
              have h1 : (parseGroup 'H' rest).2 =
                  dsm ++ 'M' :: (dss ++ 'S' :: []) := by rw [hcsM, h2]
              have : rest = dsh ++ 'H' :: (dsm ++ 'M' :: (dss ++ 'S' :: [])) := by
                rw [hcsH, h1]
              simp [durationShape, groupStr, this]
            · rw [← hval, hoH, hoM, hoS]
              simp [groupVal, Nat.mul_comm]

/-- C5: for every duration string in the supported hours/minutes/seconds
subset of ISO-8601 (`PT#H#M#S` with any subset of components present) the
parser returns exactly `3600*hours + 60*minutes + seconds`; for every
string outside that subset it returns null; being a total function it
never throws. -/
theorem parseISODurationToSec_spec (iso : String) :
    (∀ n, parseISODurationToSec iso = some n ↔
      ∃ hd md sd, GoodGroup hd ∧ GoodGroup md ∧ GoodGroup sd ∧
        iso.data = durationShape hd md sd ∧
        n = 3600 * groupVal hd + 60 * groupVal md + groupVal sd) ∧
    (parseISODurationToSec iso = none ↔
      ¬ ∃ hd md sd, GoodGroup hd ∧ GoodGroup md ∧ GoodGroup sd ∧
        iso.data = durationShape hd md sd) := by
  have hiso : ∀ hd md sd, iso.data = durationShape hd md sd →
      iso = ⟨durationShape hd md sd⟩ := by
    rcases iso with ⟨d⟩
    intro hd md sd hshape
    exact congrArg (fun l : List Char => ({ data := l } : String))
      (by simpa using hshape)
  constructor
  · intro n
    constructor
    · exact parse_complete iso n
    · rintro ⟨hd, md, sd, g1, g2, g3, hshape, hval⟩
      rw [hiso hd md sd hshape, hval]
      exact parse_sound hd md sd g1 g2 g3
  · constructor
    · intro hnone
      rintro ⟨hd, md, sd, g1, g2, g3, hshape⟩
      rw [hiso hd md sd hshape, parse_sound hd md sd g1 g2 g3] at hnone
      cases hnone
    · intro hno
      cases hp : parseISODurationToSec iso with
      | none => rfl
      | some n =>
        obtain ⟨hd, md, sd, g1, g2, g3, hshape, _⟩ := parse_complete iso n hp
        exact absurd ⟨hd, md, sd, g1, g2, g3, hshape⟩ hno

/-! ## C2: HTML escaping in the renderer -/

/-- Characters produced by one escaped character: never a
markup-significant one. -/
theorem mem_escChar (c d : Char) (hd : d ∈ escChar c) :
    d ≠ '<' ∧ d ≠ '>' ∧ d ≠ '"' ∧ d ≠ '\'' := by
  unfold escChar at hd
  split_ifs at hd with h1 h2 h3 h4 h5
  · rw [show "&amp;".data = ['&', 'a', 'm', 'p', ';'] from rfl] at hd
    simp only [List.mem_cons, List.not_mem_nil, or_false] at hd
    rcases hd with rfl | rfl | rfl | rfl | rfl <;>
      exact ⟨by decide, by decide, by decide, by decide⟩
  · rw [show "&lt;".data = ['&', 'l', 't', ';'] from rfl] at hd
    simp only [List.mem_cons, List.not_mem_nil, or_false] at hd
    rcases hd with rfl | rfl | rfl | rfl <;>
      exact ⟨by decide, by decide, by decide, by decide⟩
  · rw [show "&gt;".data = ['&', 'g', 't', ';'] from rfl] at hd
    simp only [List.mem_cons, List.not_mem_nil, or_false] at hd
    rcases hd with rfl | rfl | rfl | rfl <;>
      exact ⟨by decide, by decide, by decide, by decide⟩
  · rw [show "&quot;".data = ['&', 'q', 'u', 'o', 't', ';'] from rfl] at hd
    simp only [List.mem_cons, List.not_mem_nil, or_false] at hd
    rcases hd with rfl | rfl | rfl | rfl | rfl | rfl <;>
      exact ⟨by decide, by decide, by decide, by decide⟩
  · rw [show "&#39;".data = ['&', '#', '3', '9', ';'] from rfl] at hd
    simp only [List.mem_cons, List.not_mem_nil, or_false] at hd
    rcases hd with rfl | rfl | rfl | rfl | rfl <;>
      exact ⟨by decide, by decide, by decide, by decide⟩
  · simp only [List.mem_singleton] at hd
    subst hd
    exact ⟨h2, h3, h4, h5⟩

/-- Escaped text contains no occurrence of a markup-significant
character. -/
theorem escHtmlData_count (l : List Char) (ch : Char)
    (hch : ch = '<' ∨ ch = '>' ∨ ch = '"' ∨ ch = '\'') :
    (escHtmlData l).count ch = 0 := by
  induction l with
  | nil => rfl
  | cons c cs ih =>
    rw [show escHtmlData (c :: cs) = escChar c ++ escHtmlData cs from rfl,
      List.count_append, ih]
    have hz : (escChar c).count ch = 0 := by
      rw [List.count_eq_zero]
      intro hmem
      obtain ⟨n1, n2, n3, n4⟩ := mem_escChar c ch hmem
      rcases hch with rfl | rfl | rfl | rfl
      exacts [n1 rfl, n2 rfl, n3 rfl, n4 rfl]
    rw [hz]

/-- The `escapeHtml` output never contains `<`, `>`, `"` or `'`. -/
theorem escapeHtml_safe (s : String) :
    '<' ∉ (escapeHtml s).data ∧ '>' ∉ (escapeHtml s).data ∧
    '"' ∉ (escapeHtml s).data ∧ '\'' ∉ (escapeHtml s).data := by
  refine ⟨?_, ?_, ?_, ?_⟩ <;>
    exact List.count_eq_zero.mp (escHtmlData_count s.data _ (by simp))

/-- Escaped text contains no `<`. -/
theorem escHtmlData_count_lt_any (l : List Char) :
    (escHtmlData l).count '<' = 0 :=
  escHtmlData_count l '<' (Or.inl rfl)

/-- A list of digit characters contains no `<`. -/
theorem digit_run_count_lt (l : List Char)
    (hl : ∀ c ∈ l, c.isDigit = true) : l.count '<' = 0 := by
  rw [List.count_eq_zero]
  intro h
  exact absurd (hl '<' h) (by decide)

/-- Every character of a number's digit rendering is a digit. -/
theorem natDigitsLE_digits (n : Nat) : ∀ c ∈ natDigitsLE n, c.isDigit = true := by
  induction n using Nat.strong_induction_on with
  | _ n ih =>
    cases n with
    | zero => intro c hc; simp [natDigitsLE] at hc
    | succ m =>
      intro c hc
      simp only [natDigitsLE] at hc
      rcases List.mem_cons.mp hc with rfl | hc
      · have hr : (m + 1) % 10 < 10 := Nat.mod_lt _ (by decide)
        have hdig : ∀ k, k < 10 → (Char.ofNat (48 + k)).isDigit = true := by
          decide
        exact hdig _ hr
      · exact ih ((m + 1) / 10) (Nat.div_lt_self (Nat.succ_pos m) (by decide)) c hc

/-- Decimal rendering contains no `<`. -/
theorem natRepr_count_lt (n : Nat) : (natRepr n).data.count '<' = 0 := by
  unfold natRepr
  split_ifs with h
  · decide
  · rw [show ((⟨(natDigitsLE n).reverse⟩ : String)).data =
        (natDigitsLE n).reverse from rfl, List.count_reverse]
    exact digit_run_count_lt _ (natDigitsLE_digits n)

/-- Grouping inserts only commas. -/
theorem mem_group3 (ds : List Char) (c : Char) (hc : c ∈ group3 ds) :
    c ∈ ds ∨ c = ',' := by
  have H : ∀ n (l : List Char), l.length ≤ n →
      ∀ c ∈ group3 l, c ∈ l ∨ c = ',' := by
    intro n
    induction n with
    | zero =>
      intro l hlen c hc
      have hl : l = [] := List.length_eq_zero.mp (Nat.le_zero.mp hlen)
      subst hl
      rw [show group3 [] = [] from by simp [group3]] at hc
      cases hc
    | succ k ih =>
      intro l hlen c hc
      rw [group3] at hc
      by_cases h3 : l.length ≤ 3
      · rw [dif_pos h3] at hc
        exact Or.inl hc
      · rw [dif_neg h3] at hc
        rcases List.mem_append.mp hc with h | h
        · exact Or.inl (List.mem_of_mem_take h)
        · rcases List.mem_cons.mp h with rfl | h
          · exact Or.inr rfl
          · rcases ih (l.drop 3) (by simp [List.length_drop]; omega) c h with
              h' | h'
            · exact Or.inl (List.mem_of_mem_drop h')
            · exact Or.inr h'
  exact H ds.length ds (le_refl _) c hc

/-- Grouped digit text contains no `<`. -/
theorem group3_digits_count_lt (l : List Char)
    (hl : ∀ c ∈ l, c.isDigit = true) :
    ((group3 l).reverse).count '<' = 0 := by
  rw [List.count_reverse, List.count_eq_zero]
  intro h
  rcases mem_group3 l '<' h with h' | h'
  · exact absurd (hl '<' h') (by decide)
  · exact absurd h' (by decide)

/-- Locale-grouped number text contains no `<`. -/
theorem jsLocaleString_count_lt (x : Int) :
    (jsLocaleString x).data.count '<' = 0 := by
  unfold jsLocaleString
  rw [String.data_append, List.count_append]
  have hg := group3_digits_count_lt (natDigitsLE x.natAbs)
    (natDigitsLE_digits x.natAbs)
  split_ifs <;> simp_all

/-- `fmtNum` output contains no `<`. -/
theorem fmtNum_count_lt (n : Option Int) : (fmtNum n).data.count '<' = 0 := by
  rcases n with _ | x
  · decide
  · exact jsLocaleString_count_lt x

/-- `fmtAgeSec` output contains no `<`. -/
theorem fmtAgeSec_count_lt (sec : Option Int) :
    (fmtAgeSec sec).data.count '<' = 0 := by
  rcases sec with _ | s
  · decide
  · show (if s < 3600 then natRepr (max 1 (s.fdiv 60)).toNat ++ "分前"
      else if s < 86400 then natRepr (s.fdiv 3600).toNat ++ "時間前"
      else natRepr (s.fdiv 86400).toNat ++ "日前").data.count '<' = 0
    split_ifs <;>
      simp [String.data_append, List.count_append, natRepr_count_lt]

/-- The rank class string contains no `<`. -/
theorem rankCls_count_lt (rank : Nat) : (rankCls rank).data.count '<' = 0 := by
  unfold rankCls
  split_ifs <;> decide

/-- Topic class strings contain no `<`. -/
theorem topicToClass_count_lt (topic : String) :
    (topicToClass topic).data.count '<' = 0 := by
  simp only [topicToClass]
  split_ifs <;> decide

/-- Decomposition of the markup's `<` count: the fixed template contributes
a constant (26 with the thumbnail placeholder, 25 with a thumbnail image)
and the raw `href` contributes its own `<` characters; the escaped and
digit-formatted interpolations contribute none. -/
theorem itemHtml_count_lt (rank : Nat) (it : RItem) :
    (itemHtml rank it).data.count '<' =
      (hrefOf it).data.count '<' +
        (if it.thumbnail_url = "" then 26 else 25) := by
  have e1 : ("\n      <div class=\"").data.count '<' = 1 := by decide
  have e2 : ("\">").data.count '<' = 0 := by decide
  have e3 : ("</div>\n\n      <div class=\"thumbWrap\">\n        ").data.count '<' = 2 := by
    decide
  have e4 : ("<div class=\"thumb thumbPh\"></div>").data.count '<' = 2 := by
    decide
  have e5 : ("<img class=\"thumb\" src=\"").data.count '<' = 1 := by decide
  have e6 : ("\" alt=\"\" loading=\"lazy\" />").data.count '<' = 0 := by decide
  have e7 : ("\n      </div>\n\n      <div class=\"main\">\n        <div class=\"titleLine\">").data.count '<' = 3 := by
    decide
  have e8 : ("</div>\n        <div class=\"meta2\">\n          <span class=\"badge badgeTopic ").data.count '<' = 3 := by
    decide
  have e9 : ("</span>\n          <span class=\"badge\">Ch: ").data.count '<' = 2 := by
    decide
  have e10 : ("</span>\n          <span class=\"badge\">投稿: ").data.count '<' = 2 := by
    decide
  have e11 : ("</span>\n          <span class=\"badge badgeStrong\"><span class=\"views\">").data.count '<' = 3 := by
    decide
  have e12 : ("</span> 再生</span>\n        </div>\n      </div>\n\n      <div class=\"go\">\n        <a href=\"").data.count '<' = 6 := by
    decide
  have e13 : ("\" target=\"_blank\" rel=\"noopener\">YouTubeで見る →</a>\n      </div>\n    ").data.count '<' = 2 := by
    decide
  rw [show (itemHtml rank it).data = itemHtmlData rank it from rfl]
  simp only [itemHtmlData]
  by_cases hth : it.thumbnail_url = ""
  · rw [if_pos hth, if_pos hth]
    simp only [List.count_append, e1, e2, e3, e4, e7, e8, e9, e10, e11, e12,
      e13, escHtmlData_count_lt_any, natRepr_count_lt, fmtNum_count_lt,
      fmtAgeSec_count_lt, rankCls_count_lt, topicToClass_count_lt]
    omega
  · rw [if_neg hth, if_neg hth]
    simp only [List.count_append, e1, e2, e3, e5, e6, e7, e8, e9, e10, e11,
      e12, e13, escHtmlData_count_lt_any, natRepr_count_lt, fmtNum_count_lt,
      fmtAgeSec_count_lt, rankCls_count_lt, topicToClass_count_lt]
    omega

/-- C2 (amended): every feed-supplied text value interpolated into an
item's markup except the outbound link URL is HTML-escaped (title, channel
title, topic, thumbnail URL — and `escapeHtml` output never contains `<`,
`>`, `"` or `'`) or digit-formatted (rank, views, age); the `href`
attribute value is interpolated raw, so every `<` of the produced markup
beyond the fixed template constant comes from the feed-supplied link
URL. -/
theorem itemHtml_escape_policy :
    (∀ s : String, '<' ∉ (escapeHtml s).data ∧ '>' ∉ (escapeHtml s).data ∧
      '"' ∉ (escapeHtml s).data ∧ '\'' ∉ (escapeHtml s).data) ∧
    (∀ rank it, (itemHtml rank it).data.count '<' =
      (hrefOf it).data.count '<' +
        (if it.thumbnail_url = "" then 26 else 25)) :=
  ⟨escapeHtml_safe, itemHtml_count_lt⟩

/-- Counterexample to C2: a feed item whose `url` carries a script tag
injects two raw `<` characters into the rendered markup (28 instead of the
template's 26), although the same string passed through `escapeHtml` would
contribute none — the outbound link URL is not escaped. -/
theorem href_unescaped_counterexample :
    (itemHtml 1 { video_id := "v", url := "\"><script>alert(1)</script>"
                  title := "t", channel_title := "c", topic := ""
                  thumbnail_url := "", views := none
                  published_ago_sec := none }).data.count '<' = 28 ∧
    (itemHtml 1 { video_id := "v", url := "https://example.com/x"
                  title := "t", channel_title := "c", topic := ""
                  thumbnail_url := "", views := none
                  published_ago_sec := none }).data.count '<' = 26 ∧
    (escapeHtml "\"><script>alert(1)</script>").data.count '<' = 0 := by
  refine ⟨?_, ?_, ?_⟩
  · rw [itemHtml_count_lt]
    decide
  · rw [itemHtml_count_lt]
    decide
  · decide

/-- Witness for C5 at the concrete duration "PT1M3S". -/
theorem parseISODurationToSec_spec_witness :
    parseISODurationToSec "PT1M3S" = some 63 :=
  ((parseISODurationToSec_spec "PT1M3S").1 63).mpr
    ⟨none, some ['1'], some ['3'], trivial, ⟨by decide, by decide⟩,
      ⟨by decide, by decide⟩, by decide, by decide⟩

/-- Witness for C3 on a concrete pair of overlapping query results. -/
theorem collectIds_spec_witness :
    (collectIds [["a", "b"], ["b", "c"]]).Nodup ∧
    ("c" ∈ collectIds [["a", "b"], ["b", "c"]] ↔
      ∃ q ∈ [["a", "b"], ["b", "c"]], "c" ∈ q) :=
  ⟨(collectIds_spec [["a", "b"], ["b", "c"]]).1,
   (collectIds_spec [["a", "b"], ["b", "c"]]).2 "c"⟩

/-- Witness for C4 on a concrete two-item list. -/
theorem sortViewsDesc_spec_witness :
    (sortViewsDesc [⟨"A", "", "", "", "", "", some 100, none⟩,
        ⟨"B", "", "", "", "", "", some 500, none⟩]).Perm
      [⟨"A", "", "", "", "", "", some 100, none⟩,
        ⟨"B", "", "", "", "", "", some 500, none⟩] ∧
    (sortViewsDesc [⟨"A", "", "", "", "", "", some 100, none⟩,
        ⟨"B", "", "", "", "", "", some 500, none⟩]).Pairwise
      (fun a b => viewsKey b ≤ viewsKey a) :=
  ⟨(sortViewsDesc_spec _).1, (sortViewsDesc_spec _).2.1⟩

/-- Witness for C2 on a concrete item with a benign link. -/
theorem itemHtml_escape_policy_witness :
    '<' ∉ (escapeHtml "<b>x</b>").data ∧
    (itemHtml 2 ⟨"v", "https://e.com/u", "t", "c", "雑学", "th",
        some 12, some 45⟩).data.count '<' =
      "https://e.com/u".data.count '<' + 25 := by
  constructor
  · exact (itemHtml_escape_policy.1 "<b>x</b>").1
  · rw [itemHtml_escape_policy.2 2 _]
    decide
